import Mathlib

/-!
Verification of the Cryptopad core: a shallow embedding of
`src/utils/encryption.ts` (envelope encryption codec), the Express message
store (`server/index.js`, the unnamed server source), and the local-storage
fallback in `src/app/view/page.tsx`, together with theorems settling the
specification claims.

Modelling conventions:
* JavaScript strings are Lean `String`s (compared by their character data);
  byte sequences (`CryptoJS.lib.WordArray`) are `List Nat`.
* The CryptoJS library primitives (AES-CBC, HMAC-SHA256, PBKDF2, Base64) are
  not part of the repository; they are abstracted as the fields of a `Crypto`
  structure, and theorems state the pointwise properties of those primitives
  they rely on as hypotheses.
* Randomness (`WordArray.random`) and the clock (`Date.now()`) are passed to
  the embedded functions as explicit arguments.
* Thrown JavaScript errors become `Except`/result constructors.
-/

namespace Cryptopad

/-- Byte sequences (CryptoJS `WordArray` contents). -/
abbrev Bytes := List Nat

/-- `const ENVELOPE_VERSION = "1.1.0"`. -/
def ENVELOPE_VERSION : String := "1.1.0"

/-- `const PBKDF2_ITERATIONS = 150_000`. -/
def PBKDF2_ITERATIONS : Nat := 150000

/-- The parsed JSON envelope record (`interface EncryptionEnvelope`).
`salt` is `Option String` (`string | null`); `iterations` is `Option Nat`
(absent in a parsed JSON object is `none`, and the code applies
`?? PBKDF2_ITERATIONS`). -/
structure Envelope where
  version : String
  mode : String
  ciphertext : String
  iv : String
  salt : Option String
  hmac : String
  iterations : Option Nat
  createdAt : Nat
  deriving Repr, DecidableEq

/-- A payload string as seen by `JSON.parse`: either it parses to an
envelope-shaped object or it is opaque text. -/
inductive Payload where
  | json (e : Envelope)
  | raw (s : String)
  deriving Repr, DecidableEq

/-- The `{ aesKey, hmacKey }` bundles returned by the key-splitting helpers. -/
structure KeyPair where
  aesKey : Bytes
  hmacKey : Bytes
  deriving Repr, DecidableEq

/-- The CryptoJS primitives used by `encryption.ts`, abstracted.
`aesEncrypt message key iv` is `AES.encrypt(...).ciphertext`;
`aesDecrypt ct key iv` is `AES.decrypt(...).toString(Utf8)` (the empty string
models a falsy/failed decryption); `legacyDecrypt payload key` is the
passphrase-mode `AES.decrypt(payload, key)` of the legacy branch;
`b64encode`/`b64decode` are `enc.Base64.stringify`/`parse`. -/
structure Crypto where
  aesEncrypt : String → Bytes → Bytes → Bytes
  aesDecrypt : Bytes → Bytes → Bytes → String
  hmacSHA256 : String → Bytes → String
  pbkdf2 : String → Bytes → Nat → Bytes
  legacyDecrypt : Payload → String → String
  b64encode : Bytes → String
  b64decode : String → Bytes

/-- JavaScript truthiness of an optional string (`undefined`, `null` and `""`
are falsy). -/
def jsTruthy : Option String → Option String
  | some s => if s = "" then none else some s
  | none => none

/-- `tryParseEnvelope`: reject payloads that do not parse as an object, whose
`version` differs from `ENVELOPE_VERSION`, or whose `mode` is unrecognised. -/
def tryParseEnvelope : Payload → Option Envelope
  | .raw _ => none
  | .json e =>
    if e.version = ENVELOPE_VERSION then
      if e.mode = "link" ∨ e.mode = "password" then some e else none
    else none

/-- `splitMasterKey`: hex-slice a 64-byte secret into a 32-byte AES key and a
32-byte HMAC key (`hex.slice(0,64)` / `hex.slice(64,128)`). -/
def splitMasterKey (masterKey : Bytes) : KeyPair :=
  { aesKey := masterKey.take 32, hmacKey := (masterKey.drop 32).take 32 }

/-- `splitDerivedKey`: identical positional split of a PBKDF2-derived secret. -/
def splitDerivedKey (derived : Bytes) : KeyPair :=
  { aesKey := derived.take 32, hmacKey := (derived.drop 32).take 32 }

/-- `deriveKeyFromPassword`: PBKDF2 (keySize 16 words = 64 bytes) then split. -/
def deriveKeyFromPassword (c : Crypto) (password : String) (salt : Bytes)
    (iters : Nat) : KeyPair :=
  splitDerivedKey (c.pbkdf2 password salt iters)

/-- The field tuple bound by the integrity tag (`interface HmacPayload`). -/
structure HmacPayload where
  mode : String
  ciphertext : String
  iv : String
  salt : Option String
  createdAt : Nat
  deriving Repr, DecidableEq

/-- The delimiter-joined segment string hashed by `computeIntegrity`:
`[mode, ciphertext, iv, salt ?? "", String(createdAt ?? 0), ENVELOPE_VERSION].join("|")`. -/
def segString (p : HmacPayload) : String :=
  p.mode ++ "|" ++ p.ciphertext ++ "|" ++ p.iv ++ "|" ++ p.salt.getD "" ++ "|"
    ++ toString p.createdAt ++ "|" ++ ENVELOPE_VERSION

/-- `computeIntegrity`: HMAC-SHA256 of the joined segments, Base64-encoded
(the encoding is folded into the abstract `hmacSHA256`). -/
def computeIntegrity (c : Crypto) (p : HmacPayload) (key : Bytes) : String :=
  c.hmacSHA256 (segString p) key

/-- The accumulator loop of `timingSafeEqual`:
`result |= a.charCodeAt(i) ^ b.charCodeAt(i)`. -/
def xorOrFold : List (Char × Char) → Nat → Nat
  | [], acc => acc
  | p :: rest, acc => xorOrFold rest (acc ||| (p.1.toNat ^^^ p.2.toNat))

/-- `timingSafeEqual`: length guard, then accumulated OR of XORs must be 0. -/
def timingSafeEqual (a b : String) : Bool :=
  if a.length = b.length then xorOrFold (a.data.zip b.data) 0 == 0 else false

/-- `interface EncryptOptions`. -/
structure EncryptOptions where
  password : Option String := none

/-- `interface EncryptResult`; the JSON `payload` string is modelled by the
envelope it serialises. -/
structure EncryptResult where
  payload : Envelope
  shareKey : Option String
  requiresPassword : Bool
  integrity : String
  deriving Repr, DecidableEq

/-- `interface DecryptOptions`. -/
structure DecryptOptions where
  key : Option String := none
  password : Option String := none

/-- The thrown decryption failures, as typed results. -/
inductive DecryptError where
  | legacyMissingKey
  | legacyFailed
  | missingPassword
  | missingSalt
  | missingKey
  | integrityFailed
  | decryptFailed
  deriving Repr, DecidableEq

/-- `encryptMessage`. The fresh random values (`iv`, `salt`, `masterKey`) and
`Date.now()` are explicit arguments; the password branch consumes `saltBytes`,
the link branch consumes `masterKey`. -/
def encryptMessage (c : Crypto) (message : String) (options : EncryptOptions)
    (ivBytes saltBytes masterKey : Bytes) (now : Nat) : EncryptResult :=
  let ivBase64 := c.b64encode ivBytes
  match jsTruthy options.password with
  | some pw =>
    let kp := deriveKeyFromPassword c pw saltBytes PBKDF2_ITERATIONS
    let ciphertext := c.b64encode (c.aesEncrypt message kp.aesKey ivBytes)
    let saltBase64 := c.b64encode saltBytes
    let hmac := computeIntegrity c
      { mode := "password", ciphertext := ciphertext, iv := ivBase64,
        salt := some saltBase64, createdAt := now } kp.hmacKey
    { payload :=
        { version := ENVELOPE_VERSION, mode := "password",
          ciphertext := ciphertext, iv := ivBase64, salt := some saltBase64,
          hmac := hmac, iterations := some PBKDF2_ITERATIONS, createdAt := now },
      shareKey := none, requiresPassword := true, integrity := hmac }
  | none =>
    let kp := splitMasterKey masterKey
    let ciphertext := c.b64encode (c.aesEncrypt message kp.aesKey ivBytes)
    let hmac := computeIntegrity c
      { mode := "link", ciphertext := ciphertext, iv := ivBase64,
        salt := none, createdAt := now } kp.hmacKey
    { payload :=
        { version := ENVELOPE_VERSION, mode := "link",
          ciphertext := ciphertext, iv := ivBase64, salt := none,
          hmac := hmac, iterations := some PBKDF2_ITERATIONS, createdAt := now },
      shareKey := some (c.b64encode masterKey), requiresPassword := false,
      integrity := hmac }

/-- Lines 157–182 of `decryptMessage`: resolve the `{aesKey, hmacKey}` pair
from the credential, or fail. -/
def resolveKeys (c : Crypto) (envelope : Envelope) (options : DecryptOptions) :
    Except DecryptError KeyPair :=
  if envelope.mode = "password" then
    match jsTruthy options.password with
    | none => .error .missingPassword
    | some pw =>
      match jsTruthy envelope.salt with
      | none => .error .missingSalt
      | some saltStr =>
        .ok (deriveKeyFromPassword c pw (c.b64decode saltStr)
          (envelope.iterations.getD PBKDF2_ITERATIONS))
  else
    match jsTruthy options.key with
    | none => .error .missingKey
    | some key => .ok (splitMasterKey (c.b64decode key))

/-- The `HmacPayload` tuple that `decryptMessage` recomputes from a parsed
envelope (lines 184–193 of `encryption.ts`). -/
def envPayload (e : Envelope) : HmacPayload :=
  { mode := e.mode, ciphertext := e.ciphertext, iv := e.iv, salt := e.salt,
    createdAt := e.createdAt }

/-- The body of `decryptMessage` after a successful envelope parse (lines
155–214 of `encryption.ts`): credential resolution, integrity check (strictly
before the cipher is invoked), then AES decryption, where a falsy plaintext is
a failure. -/
def decryptParsed (c : Crypto) (envelope : Envelope) (options : DecryptOptions) :
    Except DecryptError String :=
  match resolveKeys c envelope options with
  | .error e => .error e
  | .ok kp =>
    let expectedIntegrity := computeIntegrity c (envPayload envelope) kp.hmacKey
    if timingSafeEqual expectedIntegrity envelope.hmac then
      let decrypted := c.aesDecrypt (c.b64decode envelope.ciphertext) kp.aesKey
        (c.b64decode envelope.iv)
      if decrypted = "" then .error .decryptFailed else .ok decrypted
    else .error .integrityFailed

/-- `decryptMessage`: legacy branch for unparseable payloads, otherwise the
parsed-envelope path `decryptParsed`. -/
def decryptMessage (c : Crypto) (payload : Payload) (options : DecryptOptions) :
    Except DecryptError String :=
  match tryParseEnvelope payload with
  | none =>
    match jsTruthy options.key with
    | none => .error .legacyMissingKey
    | some key =>
      let decrypted := c.legacyDecrypt payload key
      if decrypted = "" then .error .legacyFailed else .ok decrypted
  | some envelope => decryptParsed c envelope options

theorem decryptMessage_eq_parsed (c : Crypto) (payload : Payload)
    (opts : DecryptOptions) (env : Envelope)
    (hparse : tryParseEnvelope payload = some env) :
    decryptMessage c payload opts = decryptParsed c env opts := by
  unfold decryptMessage
  rw [hparse]

theorem decryptParsed_keys_error (c : Crypto) (env : Envelope)
    (opts : DecryptOptions) (e : DecryptError)
    (h : resolveKeys c env opts = .error e) :
    decryptParsed c env opts = .error e := by
  unfold decryptParsed
  rw [h]

theorem decryptParsed_keys_ok (c : Crypto) (env : Envelope)
    (opts : DecryptOptions) (kp : KeyPair)
    (h : resolveKeys c env opts = .ok kp) :
    decryptParsed c env opts =
      if timingSafeEqual (computeIntegrity c (envPayload env) kp.hmacKey) env.hmac then
        (if c.aesDecrypt (c.b64decode env.ciphertext) kp.aesKey (c.b64decode env.iv) = ""
          then .error .decryptFailed
          else .ok (c.aesDecrypt (c.b64decode env.ciphertext) kp.aesKey (c.b64decode env.iv)))
      else .error .integrityFailed := by
  unfold decryptParsed
  rw [h]

/-!
## The Express message store (server source, `app.post/get/delete('/api/message...')`)

The in-memory `messageStore` `Map` is modelled as an association list; handlers
become state-passing functions returning a typed result plus the new store.
`Date.now()` is an explicit `now : Int` argument. The environment-derived
constants are modelled at their defaults (`?? 60*24*7`, `?? 10`, `?? 50`).
JavaScript numbers arriving in the request body are modelled as `Option Int`
(`none` for a value whose `Number(...)` is not finite, in which range
`Math.floor` is the identity).
-/

namespace Server

/-- `MAX_MINUTES = Number(process.env.MAX_MINUTES ?? 60 * 24 * 7)`. -/
def MAX_MINUTES : Int := 60 * 24 * 7

/-- `DEFAULT_VIEWS = Number(process.env.DEFAULT_VIEWS ?? 10)`. -/
def DEFAULT_VIEWS : Int := 10

/-- `MAX_VIEWS = Number(process.env.MAX_VIEWS ?? 50)`. -/
def MAX_VIEWS : Int := 50

/-- A `messageStore` entry. -/
structure Entry where
  encrypted : String
  expiresAt : Int
  burnAfterRead : Bool
  remainingViews : Int
  createdAt : Int
  deriving Repr, DecidableEq

/-- The `messageStore` `Map`, as an association list keyed by id. -/
abbrev Store := List (String × Entry)

/-- `messageStore.get(id)`. -/
def Store.get (s : Store) (id : String) : Option Entry :=
  (s.find? (fun p => p.1 == id)).map Prod.snd

/-- `messageStore.has(id)`. -/
def Store.has (s : Store) (id : String) : Bool :=
  (Store.get s id).isSome

/-- `messageStore.delete(id)`. -/
def Store.del (s : Store) (id : String) : Store :=
  s.filter (fun p => !(p.1 == id))

/-- `messageStore.set(id, entry)`: replace in place, or append a new binding. -/
def Store.set (s : Store) (id : String) (e : Entry) : Store :=
  if Store.has s id then s.map (fun p => if p.1 == id then (id, e) else p)
  else s ++ [(id, e)]

/-- The view-budget resolution block of the POST handler: 1 for burn entries,
else `Math.min(Math.max(Math.floor(parsedViews), 2), Math.max(DEFAULT_VIEWS, 2),
MAX_VIEWS)` when `maxViews` is a finite number, else `Math.max(DEFAULT_VIEWS, 2)`. -/
def resolveViews (burnFlag : Bool) (maxViews : Option Int) : Int :=
  if burnFlag then 1
  else
    match maxViews with
    | some v => min (min (max v 2) (max DEFAULT_VIEWS 2)) MAX_VIEWS
    | none => max DEFAULT_VIEWS 2

/-- Responses of `POST /api/message`. -/
inductive CreateResult where
  | badRequest (msg : String)
  | created (expiresAt : Int) (remainingViews : Option Int)
  deriving Repr, DecidableEq

/-- The `POST /api/message` handler. -/
def createMessage (s : Store) (id encrypted : String)
    (expiresInMinutes : Option Int) (burnAfterRead : Bool)
    (maxViews : Option Int) (now : Int) : CreateResult × Store :=
  if id.length < 6 ∨ 36 < id.length then
    (.badRequest "Invalid id supplied", s)
  else if encrypted.length = 0 ∨ 20000 < encrypted.length then
    (.badRequest "Encrypted payload is missing or too large", s)
  else
    match expiresInMinutes with
    | none => (.badRequest "Expiry must be a positive number", s)
    | some minutes =>
      if minutes ≤ 0 then (.badRequest "Expiry must be a positive number", s)
      else
        let safeMinutes := min minutes MAX_MINUTES
        let expiresAt := now + safeMinutes * 60 * 1000
        let views := resolveViews burnAfterRead maxViews
        let entry : Entry :=
          { encrypted := encrypted, expiresAt := expiresAt,
            burnAfterRead := burnAfterRead, remainingViews := views,
            createdAt := now }
        (.created expiresAt (if burnAfterRead then none else some views),
          Store.set s id entry)

/-- Responses of `GET /api/message/:id`. -/
inductive ReadResult where
  | notFound
  | gone
  | success (encrypted : String) (expiresAt : Int) (remainingViews : Int)
  deriving Repr, DecidableEq

/-- The `GET /api/message/:id` handler: absent ⇒ 404; expired ⇒ delete and
410; exhausted ⇒ delete and 404; burn ⇒ delete and serve with count 0; else
decrement, delete on reaching 0 (otherwise persist), and serve with the
post-decrement count. -/
def readMessage (s : Store) (id : String) (now : Int) : ReadResult × Store :=
  match Store.get s id with
  | none => (.notFound, s)
  | some entry =>
    if entry.expiresAt ≤ now then (.gone, Store.del s id)
    else if entry.remainingViews ≤ 0 then (.notFound, Store.del s id)
    else if entry.burnAfterRead then
      (.success entry.encrypted entry.expiresAt 0, Store.del s id)
    else
      let newViews := max 0 (entry.remainingViews - 1)
      let s' := if newViews ≤ 0 then Store.del s id
        else Store.set s id { entry with remainingViews := newViews }
      (.success entry.encrypted entry.expiresAt newViews, s')

/-- Responses of `DELETE /api/message/:id`. -/
inductive DeleteResult where
  | notFound
  | noContent
  deriving Repr, DecidableEq

/-- The `DELETE /api/message/:id` handler: 404 when the id is absent,
otherwise delete and 204. -/
def deleteMessage (s : Store) (id : String) : DeleteResult × Store :=
  if Store.has s id then (.noContent, Store.del s id) else (.notFound, s)

/-- A sequence of GET requests for one id, at the given timestamps.  The Node
event loop runs each synchronous handler atomically, so any concurrent set of
requests is observed as some such sequence. -/
def runReads (s : Store) (id : String) : List Int → List ReadResult × Store
  | [] => ([], s)
  | t :: ts =>
    let r := readMessage s id t
    let rest := runReads r.2 id ts
    (r.1 :: rest.1, rest.2)

/-- Whether a GET response served the blob. -/
def ReadResult.isSuccess : ReadResult → Bool
  | .success _ _ _ => true
  | _ => false

/-- Whether a GET response was a 404. -/
def ReadResult.isNotFound : ReadResult → Bool
  | .notFound => true
  | _ => false

end Server

/-!
## The local-storage fallback (`src/app/view/page.tsx`)

`window.localStorage` under `cryptopad::stash` is modelled as an association
list.  `readStore()` prunes expired/exhausted entries from the parsed copy;
a call that throws before `writeStore` leaves the persisted state unchanged.
-/

namespace Local

/-- `interface LocalEntry`. -/
structure LocalEntry where
  encrypted : String
  expiresAt : Int
  burnAfterRead : Bool
  remainingViews : Int
  deriving Repr, DecidableEq

/-- The parsed localStorage record. -/
abbrev LStore := List (String × LocalEntry)

/-- `store[id]` lookup. -/
def LStore.get (s : LStore) (id : String) : Option LocalEntry :=
  (s.find? (fun p => p.1 == id)).map Prod.snd

/-- `Boolean(store[id])`. -/
def LStore.has (s : LStore) (id : String) : Bool :=
  (LStore.get s id).isSome

/-- `delete store[id]`. -/
def LStore.del (s : LStore) (id : String) : LStore :=
  s.filter (fun p => !(p.1 == id))

/-- `store[id] = entry`. -/
def LStore.set (s : LStore) (id : String) (e : LocalEntry) : LStore :=
  if LStore.has s id then s.map (fun p => if p.1 == id then (id, e) else p)
  else s ++ [(id, e)]

/-- `clampViews`: `Math.min(Math.max(Math.floor(value), 2), 50)`. -/
def clampViews (value : Int) : Int :=
  min (max value 2) 50

/-- `pruneExpired`: drop entries whose expiry has passed, and non-burn entries
with no views left. -/
def pruneExpired (s : LStore) (now : Int) : LStore :=
  s.filter (fun p =>
    decide (now < p.2.expiresAt) && (p.2.burnAfterRead || decide (0 < p.2.remainingViews)))

/-- `interface PersistPayload`; `maxViews` is `some` exactly when
`typeof payload.maxViews === "number"`. -/
structure PersistPayload where
  id : String
  encrypted : String
  expiresInMinutes : Int
  burnAfterRead : Bool
  maxViews : Option Int
  deriving Repr, DecidableEq

/-- `interface PersistResponse` (the `servedBy` discriminator is fixed to
`"local"` on this path). -/
structure PersistResponse where
  expiresAt : Int
  remainingViews : Option Int
  deriving Repr, DecidableEq

/-- `persistLocal`: prune (via `readStore`), resolve the budget with
`clampViews` (defaulting a non-number `maxViews` to 10), store, respond. -/
def persistLocal (s : LStore) (payload : PersistPayload) (now : Int) :
    PersistResponse × LStore :=
  let store := pruneExpired s now
  let views := if payload.burnAfterRead then 1
    else clampViews (payload.maxViews.getD 10)
  let entry : LocalEntry :=
    { encrypted := payload.encrypted,
      expiresAt := now + payload.expiresInMinutes * 60 * 1000,
      burnAfterRead := payload.burnAfterRead, remainingViews := views }
  ({ expiresAt := entry.expiresAt,
     remainingViews := if payload.burnAfterRead then none else some views },
    LStore.set store payload.id entry)

/-- Outcomes of `fetchLocal` (the two thrown messages, or the served blob). -/
inductive FetchResult where
  | unavailable
  | expired
  | success (encrypted : String) (expiresAt : Int) (remainingViews : Int)
  deriving Repr, DecidableEq

/-- `fetchLocal`: prune, look up; a missing record throws without rewriting
the persisted store; expired and burn paths delete and write; the vault path
decrements, deletes on 0, and writes. -/
def fetchLocal (s : LStore) (id : String) (now : Int) : FetchResult × LStore :=
  let store := pruneExpired s now
  match LStore.get store id with
  | none => (.unavailable, s)
  | some record =>
    if record.expiresAt ≤ now then (.expired, LStore.del store id)
    else if record.burnAfterRead then
      (.success record.encrypted record.expiresAt 0, LStore.del store id)
    else
      let newViews := max 0 (record.remainingViews - 1)
      let store' := if newViews ≤ 0 then LStore.del store id
        else LStore.set store id { record with remainingViews := newViews }
      (.success record.encrypted record.expiresAt newViews, store')

/-- `deleteLocal`: prune, and remove the id when present (writing the store
only in that case). -/
def deleteLocal (s : LStore) (id : String) (now : Int) : LStore :=
  let store := pruneExpired s now
  if LStore.has store id then LStore.del store id else s

end Local

/-! ## Basic lemmas about the embedded primitives -/

theorem nat_or_eq_zero {a b : Nat} (h : a ||| b = 0) : a = 0 ∧ b = 0 := by
  constructor
  · apply Nat.eq_of_testBit_eq
    intro i
    have hb := congrArg (fun n => Nat.testBit n i) h
    simp only [Nat.testBit_or, Nat.zero_testBit, Bool.or_eq_false_iff] at hb
    simp [hb.1]
  · apply Nat.eq_of_testBit_eq
    intro i
    have hb := congrArg (fun n => Nat.testBit n i) h
    simp only [Nat.testBit_or, Nat.zero_testBit, Bool.or_eq_false_iff] at hb
    simp [hb.2]

theorem char_toNat_inj {a b : Char} (h : a.toNat = b.toNat) : a = b := by
  unfold Char.toNat at h
  exact Char.eq_of_val_eq (UInt32.toNat.inj h)

theorem xorOrFold_eq_zero_iff (l : List (Char × Char)) (acc : Nat) :
    xorOrFold l acc = 0 ↔ acc = 0 ∧ ∀ p ∈ l, p.1 = p.2 := by
  induction l generalizing acc with
  | nil => simp [xorOrFold]
  | cons p rest ih =>
    simp only [xorOrFold, ih, List.mem_cons]
    constructor
    · rintro ⟨hor, hrest⟩
      obtain ⟨hacc, hx⟩ := nat_or_eq_zero hor
      refine ⟨hacc, ?_⟩
      rintro q (rfl | hq)
      · exact char_toNat_inj (Nat.xor_eq_zero.mp hx)
      · exact hrest q hq
    · rintro ⟨hacc, hall⟩
      subst hacc
      have hx : p.1.toNat ^^^ p.2.toNat = 0 :=
        Nat.xor_eq_zero.mpr (congrArg Char.toNat (hall p (Or.inl rfl)))
      refine ⟨by simp [hx], fun q hq => hall q (Or.inr hq)⟩

theorem zip_forall_eq {l₁ l₂ : List Char} (hlen : l₁.length = l₂.length)
    (h : ∀ p ∈ l₁.zip l₂, p.1 = p.2) : l₁ = l₂ := by
  induction l₁ generalizing l₂ with
  | nil => cases l₂ with
    | nil => rfl
    | cons b bs => simp at hlen
  | cons a as ih =>
    cases l₂ with
    | nil => simp at hlen
    | cons b bs =>
      simp only [List.zip_cons_cons, List.mem_cons] at h
      have hab : a = b := h (a, b) (Or.inl rfl)
      have := ih (by simpa using hlen) (fun p hp => h p (Or.inr hp))
      rw [hab, this]

theorem zip_self_forall (l : List Char) : ∀ p ∈ l.zip l, p.1 = p.2 := by
  induction l with
  | nil => simp
  | cons a as ih =>
    simp only [List.zip_cons_cons, List.mem_cons]
    rintro p (rfl | hp)
    · rfl
    · exact ih p hp

/-- The embedded constant-time comparator decides string equality. -/
theorem timingSafeEqual_iff (a b : String) : timingSafeEqual a b = true ↔ a = b := by
  unfold timingSafeEqual
  by_cases hlen : a.length = b.length
  · rw [if_pos hlen, beq_iff_eq, xorOrFold_eq_zero_iff]
    constructor
    · intro h
      exact String.ext (zip_forall_eq hlen h.2)
    · rintro rfl
      exact ⟨rfl, zip_self_forall a.data⟩
  · rw [if_neg hlen]
    simp only [Bool.false_eq_true, false_iff]
    intro hab
    exact hlen (by rw [hab])

/-! Cancellation facts used to show that altering one envelope field alters
the delimiter-joined segment string. -/

theorem append_middle_cancel {x z y y' : List Char}
    (h : x ++ (y ++ z) = x ++ (y' ++ z)) : y = y' :=
  List.append_cancel_right (List.append_cancel_left h)

theorem seg_ne_ciphertext {p p' : HmacPayload}
    (hm : p'.mode = p.mode) (hiv : p'.iv = p.iv) (hs : p'.salt = p.salt)
    (hc : p'.createdAt = p.createdAt) (hct : p'.ciphertext ≠ p.ciphertext) :
    segString p' ≠ segString p := by
  intro h
  apply hct
  have h2 := congrArg String.data h
  simp only [segString, hm, hiv, hs, hc, String.data_append, List.append_assoc] at h2
  have h3 := List.append_cancel_left (List.append_cancel_left h2)
  exact String.ext (List.append_cancel_right h3)

theorem seg_ne_iv {p p' : HmacPayload}
    (hm : p'.mode = p.mode) (hct : p'.ciphertext = p.ciphertext) (hs : p'.salt = p.salt)
    (hc : p'.createdAt = p.createdAt) (hiv : p'.iv ≠ p.iv) :
    segString p' ≠ segString p := by
  intro h
  apply hiv
  have h2 := congrArg String.data h
  simp only [segString, hm, hct, hs, hc, String.data_append, List.append_assoc] at h2
  have h3 := List.append_cancel_left (List.append_cancel_left
    (List.append_cancel_left (List.append_cancel_left h2)))
  exact String.ext (List.append_cancel_right h3)

theorem seg_ne_salt {p p' : HmacPayload}
    (hm : p'.mode = p.mode) (hct : p'.ciphertext = p.ciphertext) (hiv : p'.iv = p.iv)
    (hc : p'.createdAt = p.createdAt) (hs : p'.salt.getD "" ≠ p.salt.getD "") :
    segString p' ≠ segString p := by
  intro h
  apply hs
  have h2 := congrArg String.data h
  simp only [segString, hm, hct, hiv, hc, String.data_append, List.append_assoc] at h2
  have h3 := List.append_cancel_left (List.append_cancel_left
    (List.append_cancel_left (List.append_cancel_left
      (List.append_cancel_left (List.append_cancel_left h2)))))
  exact String.ext (List.append_cancel_right h3)

/-! ## Association-list store lemmas -/

theorem Store.get_del (s : Server.Store) (id : String) :
    Server.Store.get (Server.Store.del s id) id = none := by
  unfold Server.Store.get Server.Store.del
  have hfind : List.find? (fun p => p.1 == id) (s.filter (fun p => !(p.1 == id))) = none := by
    rw [List.find?_eq_none]
    intro p hp
    have := List.of_mem_filter hp
    simpa using this
  rw [hfind]
  rfl

theorem readMessage_absent (s : Server.Store) (id : String) (now : Int)
    (h : Server.Store.get s id = none) :
    Server.readMessage s id now = (.notFound, s) := by
  unfold Server.readMessage
  rw [h]

/-! ## A concrete instantiation of the abstract CryptoJS primitives

`toyCrypto` is used by the witnesses: a computable `Crypto` whose keyed hash
is injective in (message, key), so that the collision-freeness hypotheses of
the tamper theorems are satisfiable. `tEnc` encodes a byte list in unary over
the alphabet `{a, b}` (so `#` can serve as an unambiguous separator). -/

def tEnc : List Nat → List Char
  | [] => []
  | b :: rest => List.replicate b 'a' ++ 'b' :: tEnc rest

def tDecAux : List Char → Nat → List Nat
  | [], _ => []
  | ch :: rest, acc => if ch = 'b' then acc :: tDecAux rest 0 else tDecAux rest (acc + 1)

theorem tDecAux_replicate (b : Nat) (rest : List Char) (acc : Nat) :
    tDecAux (List.replicate b 'a' ++ 'b' :: rest) acc = (acc + b) :: tDecAux rest 0 := by
  induction b generalizing acc with
  | zero => simp [tDecAux]
  | succ n ih =>
    rw [List.replicate_succ]
    simp only [List.cons_append, tDecAux, if_neg (by decide : ¬ ('a' = 'b')),
      List.append_eq]
    rw [ih]
    congr 1
    omega

theorem tEnc_roundtrip (k : List Nat) : tDecAux (tEnc k) 0 = k := by
  induction k with
  | nil => rfl
  | cons b rest ih =>
    rw [tEnc, tDecAux_replicate]
    simp [ih]

theorem tEnc_inj {k k' : List Nat} (h : tEnc k = tEnc k') : k = k' := by
  have := congrArg (fun l => tDecAux l 0) h
  simpa [tEnc_roundtrip] using this

theorem tEnc_no_hash (k : List Nat) : '#' ∉ tEnc k := by
  induction k with
  | nil => simp [tEnc]
  | cons b rest ih =>
    rw [tEnc]
    intro hmem
    rcases List.mem_append.mp hmem with h1 | h2
    · exact absurd (List.eq_of_mem_replicate h1) (by decide)
    · rcases List.mem_cons.mp h2 with h3 | h4
      · exact absurd h3 (by decide)
      · exact ih h4

theorem sep_split : ∀ (xs ys u v : List Char), '#' ∉ xs → '#' ∉ ys →
    xs ++ '#' :: u = ys ++ '#' :: v → xs = ys ∧ u = v := by
  intro xs
  induction xs with
  | nil =>
    intro ys u v _ hys h
    cases ys with
    | nil => simpa using h
    | cons y ys' =>
      simp only [List.nil_append, List.cons_append, List.cons.injEq] at h
      exact absurd (h.1 ▸ List.mem_cons_self y ys') (fun hc => hys (h.1 ▸ hc))
  | cons x xs' ih =>
    intro ys u v hxs hys h
    cases ys with
    | nil =>
      simp only [List.cons_append, List.nil_append, List.cons.injEq] at h
      exact absurd (h.1 ▸ List.mem_cons_self x xs') (fun hc => hxs hc)
    | cons y ys' =>
      simp only [List.cons_append, List.cons.injEq] at h
      obtain ⟨hxy, hrest⟩ := h
      have := ih ys' u v (fun hc => hxs (List.mem_cons_of_mem x hc))
        (fun hc => hys (List.mem_cons_of_mem y hc)) hrest
      exact ⟨by rw [hxy, this.1], this.2⟩

/-- Concrete primitives for the witnesses. The keyed hash tags the key in
unary before a `#` separator, making it injective as a function of the
(message, key) pair; the other primitives are simple invertible codings. -/
def toyCrypto : Crypto where
  aesEncrypt m _ _ := m.data.map Char.toNat
  aesDecrypt ct _ _ := String.mk (ct.map Char.ofNat)
  hmacSHA256 msg key := String.mk (tEnc key ++ '#' :: msg.data)
  pbkdf2 pw salt iters := List.replicate 32 0 ++ (pw.data.map Char.toNat ++ salt ++ iters :: List.replicate 32 0)
  legacyDecrypt _ _ := ""
  b64encode bs := String.mk (bs.map Char.ofNat)
  b64decode s := s.data.map Char.toNat

/-- The toy keyed hash is collision-free across both messages and keys. -/
theorem toyCrypto_hmac_pairInj (k k' : Bytes) (s s' : String)
    (h : toyCrypto.hmacSHA256 s k = toyCrypto.hmacSHA256 s' k') : s = s' ∧ k = k' := by
  simp only [toyCrypto] at h
  have h2 := congrArg String.data h
  obtain ⟨henc, hmsg⟩ := sep_split _ _ _ _ (tEnc_no_hash k) (tEnc_no_hash k') h2
  exact ⟨String.ext hmsg, tEnc_inj henc⟩

/-! ## Claim C1 -/

/-- C1 counterexample: the round-trip fails for the EMPTY message.  With the
concrete primitives, encrypting `""` in link mode and decrypting with the
returned share key yields the `decryptFailed` error (the code treats a falsy
decrypted string as failure), not `.ok ""`. -/
theorem C1_counterexample :
    (decryptMessage toyCrypto
      (.json (encryptMessage toyCrypto "" {} [1] [2] [3, 4] 0).payload)
      { key := (encryptMessage toyCrypto "" {} [1] [2] [3, 4] 0).shareKey }
        = .error .decryptFailed)
    ∧ (Except.error DecryptError.decryptFailed ≠ (Except.ok "" : Except DecryptError String)) := by
  refine ⟨by rfl, ?_⟩
  intro h
  exact Except.noConfusion h

/-- C1 (amended): for every NONEMPTY message and both modes (link mode with
the returned `shareKey`, password mode with the same nonempty password),
`decryptMessage` applied to the payload produced by `encryptMessage` with the
matching credential returns the original message, provided the Base64 codec
round-trips on the byte strings involved and AES decryption inverts AES
encryption under the resolved key. -/
theorem C1_roundtrip (c : Crypto) (m pw : String) (ivB saltB mkB : Bytes) (now : Nat)
    (hm : m ≠ "") (hpw : pw ≠ "")
    (hkeystr : c.b64encode mkB ≠ "")
    (hsaltstr : c.b64encode saltB ≠ "")
    (hmk : c.b64decode (c.b64encode mkB) = mkB)
    (hsalt : c.b64decode (c.b64encode saltB) = saltB)
    (hiv : c.b64decode (c.b64encode ivB) = ivB)
    (hctL : c.b64decode (c.b64encode (c.aesEncrypt m (splitMasterKey mkB).aesKey ivB))
      = c.aesEncrypt m (splitMasterKey mkB).aesKey ivB)
    (hctP : c.b64decode (c.b64encode
        (c.aesEncrypt m (deriveKeyFromPassword c pw saltB PBKDF2_ITERATIONS).aesKey ivB))
      = c.aesEncrypt m (deriveKeyFromPassword c pw saltB PBKDF2_ITERATIONS).aesKey ivB)
    (haesL : c.aesDecrypt (c.aesEncrypt m (splitMasterKey mkB).aesKey ivB)
      (splitMasterKey mkB).aesKey ivB = m)
    (haesP : c.aesDecrypt
        (c.aesEncrypt m (deriveKeyFromPassword c pw saltB PBKDF2_ITERATIONS).aesKey ivB)
        (deriveKeyFromPassword c pw saltB PBKDF2_ITERATIONS).aesKey ivB = m) :
    (decryptMessage c (.json (encryptMessage c m {} ivB saltB mkB now).payload)
        { key := (encryptMessage c m {} ivB saltB mkB now).shareKey } = .ok m)
    ∧ (decryptMessage c
        (.json (encryptMessage c m { password := some pw } ivB saltB mkB now).payload)
        { password := some pw } = .ok m) := by
  constructor
  · simp [encryptMessage, jsTruthy, decryptMessage, decryptParsed, tryParseEnvelope,
      resolveKeys, envPayload, hkeystr, hmk, hctL, hiv, haesL, hm, timingSafeEqual_iff]
  · simp [encryptMessage, jsTruthy, decryptMessage, decryptParsed, tryParseEnvelope,
      resolveKeys, envPayload, hpw, hsaltstr, hsalt, hctP, hiv, haesP, hm, timingSafeEqual_iff]

/-- Witness for `C1_roundtrip` at concrete inputs and the concrete primitives. -/
theorem C1_roundtrip_witness :
    (decryptMessage toyCrypto
        (.json (encryptMessage toyCrypto "hi" {} [1] [2] [3, 4] 0).payload)
        { key := (encryptMessage toyCrypto "hi" {} [1] [2] [3, 4] 0).shareKey } = .ok "hi")
    ∧ (decryptMessage toyCrypto
        (.json (encryptMessage toyCrypto "hi" { password := some "pw" } [1] [2] [3, 4] 0).payload)
        { password := some "pw" } = .ok "hi") :=
  C1_roundtrip toyCrypto "hi" "pw" [1] [2] [3, 4] 0 (by decide) (by decide) (by decide)
    (by decide) (by decide) (by decide) (by decide) (by decide) (by decide) (by decide)
    (by decide)

/-! ## Claim C2 -/

/-- A successful decryption of a well-formed versioned envelope implies key
resolution succeeded and the integrity comparison passed. -/
theorem decrypt_ok_inversion (c : Crypto) (env : Envelope) (opts : DecryptOptions)
    (m : String) (hver : env.version = ENVELOPE_VERSION)
    (hmode : env.mode = "link" ∨ env.mode = "password")
    (h : decryptMessage c (.json env) opts = .ok m) :
    ∃ kp, resolveKeys c env opts = .ok kp ∧
      timingSafeEqual (computeIntegrity c (envPayload env) kp.hmacKey) env.hmac = true := by
  have hparse : tryParseEnvelope (.json env) = some env := by
    simp [tryParseEnvelope, hver, hmode]
  rw [decryptMessage_eq_parsed c (.json env) opts env hparse] at h
  cases hr : resolveKeys c env opts with
  | error e =>
    rw [decryptParsed_keys_error c env opts e hr] at h
    exact absurd h (by simp)
  | ok kp =>
    rw [decryptParsed_keys_ok c env opts kp hr] at h
    by_cases ht : timingSafeEqual (computeIntegrity c (envPayload env) kp.hmacKey) env.hmac = true
    · exact ⟨kp, rfl, ht⟩
    · rw [if_neg ht] at h
      exact absurd h (by simp)

/-- C2: tampering with any single field of a well-formed versioned envelope
that decrypts successfully — `ciphertext`, `iv`, `salt`, or the stored
`integrityTag` — makes `decryptMessage` (with the same matching credential)
fail with the integrity error, and the result does not depend on the AES
decryption primitive at all (the integrity check runs strictly before the
cipher is invoked).  The abstract keyed hash is assumed collision-free in the
(message, key) pair. -/
theorem C2_tamper_detection (c : Crypto) (env : Envelope) (opts : DecryptOptions)
    (m : String)
    (hpair : ∀ (k k' : Bytes) (s s' : String),
      c.hmacSHA256 s k = c.hmacSHA256 s' k' → s = s' ∧ k = k')
    (hver : env.version = ENVELOPE_VERSION)
    (hmode : env.mode = "link" ∨ env.mode = "password")
    (hok : decryptMessage c (.json env) opts = .ok m) :
    (∀ ct', ct' ≠ env.ciphertext → ∀ d,
      decryptMessage { c with aesDecrypt := d } (.json { env with ciphertext := ct' }) opts
        = .error .integrityFailed)
    ∧ (∀ iv', iv' ≠ env.iv → ∀ d,
      decryptMessage { c with aesDecrypt := d } (.json { env with iv := iv' }) opts
        = .error .integrityFailed)
    ∧ (∀ salt', salt' ≠ "" → salt' ≠ env.salt.getD "" → ∀ d,
      decryptMessage { c with aesDecrypt := d } (.json { env with salt := some salt' }) opts
        = .error .integrityFailed)
    ∧ (∀ tag', tag' ≠ env.hmac → ∀ d,
      decryptMessage { c with aesDecrypt := d } (.json { env with hmac := tag' }) opts
        = .error .integrityFailed) := by
  obtain ⟨kp, hkeys, htse⟩ := decrypt_ok_inversion c env opts m hver hmode hok
  have hsig : computeIntegrity c (envPayload env) kp.hmacKey = env.hmac :=
    (timingSafeEqual_iff _ _).mp htse
  refine ⟨?_, ?_, ?_, ?_⟩
  · -- ciphertext tampered
    intro ct' hne d
    have hparse' : tryParseEnvelope (.json { env with ciphertext := ct' })
        = some { env with ciphertext := ct' } := by
      simp [tryParseEnvelope, hver, hmode]
    have hkeys' : resolveKeys { c with aesDecrypt := d } { env with ciphertext := ct' } opts
        = .ok kp := hkeys
    have hcond : ¬ (timingSafeEqual
        (computeIntegrity { c with aesDecrypt := d }
          (envPayload { env with ciphertext := ct' }) kp.hmacKey)
        ({ env with ciphertext := ct' } : Envelope).hmac = true) := by
      intro htrue
      have heq := (timingSafeEqual_iff _ _).mp htrue
      rw [← hsig] at heq
      have hseg := (hpair _ _ _ _ heq).1
      exact @seg_ne_ciphertext (envPayload env)
        (envPayload { env with ciphertext := ct' })
        rfl rfl rfl rfl hne hseg
    rw [decryptMessage_eq_parsed _ _ _ _ hparse', decryptParsed_keys_ok _ _ _ _ hkeys',
      if_neg hcond]
  · -- iv tampered
    intro iv' hne d
    have hparse' : tryParseEnvelope (.json { env with iv := iv' })
        = some { env with iv := iv' } := by
      simp [tryParseEnvelope, hver, hmode]
    have hkeys' : resolveKeys { c with aesDecrypt := d } { env with iv := iv' } opts
        = .ok kp := hkeys
    have hcond : ¬ (timingSafeEqual
        (computeIntegrity { c with aesDecrypt := d }
          (envPayload { env with iv := iv' }) kp.hmacKey)
        ({ env with iv := iv' } : Envelope).hmac = true) := by
      intro htrue
      have heq := (timingSafeEqual_iff _ _).mp htrue
      rw [← hsig] at heq
      have hseg := (hpair _ _ _ _ heq).1
      exact @seg_ne_iv (envPayload env) (envPayload { env with iv := iv' })
        rfl rfl rfl rfl hne hseg
    rw [decryptMessage_eq_parsed _ _ _ _ hparse', decryptParsed_keys_ok _ _ _ _ hkeys',
      if_neg hcond]
  · -- salt tampered (the resolved key may change with it, in password mode)
    intro salt' hne0 hne d
    have hparse' : tryParseEnvelope (.json { env with salt := some salt' })
        = some { env with salt := some salt' } := by
      simp [tryParseEnvelope, hver, hmode]
    cases hr' : resolveKeys { c with aesDecrypt := d } { env with salt := some salt' } opts with
    | error e =>
      -- impossible: the original resolution succeeded and the new salt is truthy
      exfalso
      unfold resolveKeys at hkeys hr'
      by_cases hpm : env.mode = "password"
      · rw [if_pos hpm] at hkeys hr'
        cases hpw : jsTruthy opts.password with
        | none => rw [hpw] at hkeys; simp at hkeys
        | some pw =>
          rw [hpw] at hr'
          have : jsTruthy (some salt') = some salt' := by simp [jsTruthy, hne0]
          rw [this] at hr'
          simp at hr'
      · rw [if_neg hpm] at hkeys hr'
        cases hk : jsTruthy opts.key with
        | none => rw [hk] at hkeys; simp at hkeys
        | some key => rw [hk] at hr'; simp at hr'
    | ok kp' =>
      have hcond : ¬ (timingSafeEqual
          (computeIntegrity { c with aesDecrypt := d }
            (envPayload { env with salt := some salt' }) kp'.hmacKey)
          ({ env with salt := some salt' } : Envelope).hmac = true) := by
        intro htrue
        have heq := (timingSafeEqual_iff _ _).mp htrue
        rw [← hsig] at heq
        have hseg := (hpair _ _ _ _ heq).1
        exact @seg_ne_salt (envPayload env)
          (envPayload { env with salt := some salt' })
          rfl rfl rfl rfl hne hseg
      rw [decryptMessage_eq_parsed _ _ _ _ hparse', decryptParsed_keys_ok _ _ _ _ hr',
        if_neg hcond]
  · -- stored tag tampered
    intro tag' hne d
    have hparse' : tryParseEnvelope (.json { env with hmac := tag' })
        = some { env with hmac := tag' } := by
      simp [tryParseEnvelope, hver, hmode]
    have hkeys' : resolveKeys { c with aesDecrypt := d } { env with hmac := tag' } opts
        = .ok kp := hkeys
    have hcond : ¬ (timingSafeEqual
        (computeIntegrity { c with aesDecrypt := d }
          (envPayload { env with hmac := tag' }) kp.hmacKey)
        ({ env with hmac := tag' } : Envelope).hmac = true) := by
      intro htrue
      have heq := (timingSafeEqual_iff _ _).mp htrue
      have heq' : computeIntegrity c (envPayload env) kp.hmacKey = tag' := heq
      exact hne (heq'.symm.trans hsig)
    rw [decryptMessage_eq_parsed _ _ _ _ hparse', decryptParsed_keys_ok _ _ _ _ hkeys',
      if_neg hcond]

/-- Witness for `C2_tamper_detection`: a concrete link-mode envelope whose
ciphertext is replaced; the poisoned decryption primitive is never consulted
and the result is the integrity failure. -/
theorem C2_tamper_detection_witness :
    decryptMessage { toyCrypto with aesDecrypt := fun _ _ _ => "ALTERED" }
      (.json { (encryptMessage toyCrypto "hi" {} [1] [2] [3, 4] 0).payload with
        ciphertext := "XX" })
      { key := (encryptMessage toyCrypto "hi" {} [1] [2] [3, 4] 0).shareKey }
      = .error .integrityFailed :=
  (C2_tamper_detection toyCrypto
    (encryptMessage toyCrypto "hi" {} [1] [2] [3, 4] 0).payload
    { key := (encryptMessage toyCrypto "hi" {} [1] [2] [3, 4] 0).shareKey }
    "hi" toyCrypto_hmac_pairInj rfl (Or.inl rfl) (by rfl)).1
    "XX" (by decide) (fun _ _ _ => "ALTERED")

/-! ## Claim C3 -/

/-- C3: (1) a password-mode envelope whose stored tag was produced under the
key derived from the correct password fails with the integrity error when
decrypted with a different (wrong, nonempty) password, provided the two
derived integrity keys differ and the keyed hash is collision-free — in
particular it is NOT the decryption-failed error; (2) a link-mode envelope
read with no key fails with the missing-credential error, independently of
the key-derivation and cipher primitives (neither is invoked). -/
theorem C3_wrong_credential (c : Crypto) (env : Envelope) (ss pw wp : String)
    (hpair : ∀ (k k' : Bytes) (s s' : String),
      c.hmacSHA256 s k = c.hmacSHA256 s' k' → s = s' ∧ k = k')
    (hver : env.version = ENVELOPE_VERSION)
    (hmode : env.mode = "password")
    (hsome : env.salt = some ss) (hss : ss ≠ "") (hwp : wp ≠ "")
    (htag : env.hmac = computeIntegrity c (envPayload env)
      (deriveKeyFromPassword c pw (c.b64decode ss)
        (env.iterations.getD PBKDF2_ITERATIONS)).hmacKey)
    (hk : (deriveKeyFromPassword c wp (c.b64decode ss)
        (env.iterations.getD PBKDF2_ITERATIONS)).hmacKey
      ≠ (deriveKeyFromPassword c pw (c.b64decode ss)
        (env.iterations.getD PBKDF2_ITERATIONS)).hmacKey) :
    (decryptMessage c (.json env) { password := some wp } = .error .integrityFailed)
    ∧ (∀ (env' : Envelope), env'.version = ENVELOPE_VERSION → env'.mode = "link" →
        ∀ (p : Option String) (pb : String → Bytes → Nat → Bytes)
          (d : Bytes → Bytes → Bytes → String),
        decryptMessage { c with pbkdf2 := pb, aesDecrypt := d } (.json env')
          { key := none, password := p } = .error .missingKey) := by
  constructor
  · have hparse : tryParseEnvelope (.json env) = some env := by
      simp [tryParseEnvelope, hver, hmode]
    have hres : resolveKeys c env { password := some wp } =
        .ok (deriveKeyFromPassword c wp (c.b64decode ss)
          (env.iterations.getD PBKDF2_ITERATIONS)) := by
      simp [resolveKeys, hmode, hsome, jsTruthy, hwp, hss]
    have hcond : ¬ (timingSafeEqual
        (computeIntegrity c (envPayload env)
          (deriveKeyFromPassword c wp (c.b64decode ss)
            (env.iterations.getD PBKDF2_ITERATIONS)).hmacKey) env.hmac = true) := by
      intro htrue
      have heq := (timingSafeEqual_iff _ _).mp htrue
      rw [htag] at heq
      exact hk (hpair _ _ _ _ heq).2
    rw [decryptMessage_eq_parsed _ _ _ _ hparse, decryptParsed_keys_ok _ _ _ _ hres,
      if_neg hcond]
  · intro env' hver' hmode' p pb d
    have hparse : tryParseEnvelope (.json env') = some env' := by
      simp [tryParseEnvelope, hver', hmode']
    have hres : resolveKeys { c with pbkdf2 := pb, aesDecrypt := d } env'
        { key := none, password := p } = .error .missingKey := by
      simp [resolveKeys, hmode', jsTruthy]
    rw [decryptMessage_eq_parsed _ _ _ _ hparse, decryptParsed_keys_error _ _ _ _ hres]

/-- Witness for `C3_wrong_credential` at a concrete password envelope and a
concrete link envelope. -/
theorem C3_wrong_credential_witness :
    (decryptMessage toyCrypto
      (.json
        { version := ENVELOPE_VERSION, mode := "password", ciphertext := "ct",
          iv := "iv", salt := some "s",
          hmac := computeIntegrity toyCrypto
            { mode := "password", ciphertext := "ct", iv := "iv", salt := some "s",
              createdAt := 7 }
            (deriveKeyFromPassword toyCrypto "pw" (toyCrypto.b64decode "s")
              PBKDF2_ITERATIONS).hmacKey,
          iterations := none, createdAt := 7 })
      { password := some "qq" } = .error .integrityFailed)
    ∧ (decryptMessage
        { toyCrypto with pbkdf2 := fun _ _ _ => [9],
                         aesDecrypt := fun _ _ _ => "ALTERED" }
        (.json
          { version := ENVELOPE_VERSION, mode := "link", ciphertext := "ct",
            iv := "iv", salt := none, hmac := "t", iterations := none,
            createdAt := 7 })
        { key := none, password := some "pw" } = .error .missingKey) := by
  have h := C3_wrong_credential toyCrypto
    { version := ENVELOPE_VERSION, mode := "password", ciphertext := "ct",
      iv := "iv", salt := some "s",
      hmac := computeIntegrity toyCrypto
        { mode := "password", ciphertext := "ct", iv := "iv", salt := some "s",
          createdAt := 7 }
        (deriveKeyFromPassword toyCrypto "pw" (toyCrypto.b64decode "s")
          PBKDF2_ITERATIONS).hmacKey,
      iterations := none, createdAt := 7 }
    "s" "pw" "qq" toyCrypto_hmac_pairInj rfl rfl rfl (by decide) (by decide) rfl
    (by decide)
  exact ⟨h.1, h.2
    { version := ENVELOPE_VERSION, mode := "link", ciphertext := "ct", iv := "iv",
      salt := none, hmac := "t", iterations := none, createdAt := 7 }
    rfl rfl (some "pw") (fun _ _ _ => [9]) (fun _ _ _ => "ALTERED")⟩

/-! ## Claim C10 -/

/-- C10: on the password path, `decryptMessage` derives the key material with
the envelope's OWN `iterations` value — `Option.getD PBKDF2_ITERATIONS` and
nothing else, so `iterations = some 1` is processed with a single iteration
(no minimum is enforced) and an absent field falls back to 150,000.  An
envelope whose tag and ciphertext are consistent with the key derived at
`env.iterations.getD PBKDF2_ITERATIONS` decrypts successfully. -/
theorem C10_iterations_used (c : Crypto) (env : Envelope) (ss pw m : String)
    (hver : env.version = ENVELOPE_VERSION)
    (hmode : env.mode = "password")
    (hsome : env.salt = some ss) (hss : ss ≠ "") (hpw : pw ≠ "") (hm : m ≠ "")
    (htag : env.hmac = computeIntegrity c (envPayload env)
      (deriveKeyFromPassword c pw (c.b64decode ss)
        (env.iterations.getD PBKDF2_ITERATIONS)).hmacKey)
    (hdec : c.aesDecrypt (c.b64decode env.ciphertext)
      (deriveKeyFromPassword c pw (c.b64decode ss)
        (env.iterations.getD PBKDF2_ITERATIONS)).aesKey
      (c.b64decode env.iv) = m) :
    decryptMessage c (.json env) { password := some pw } = .ok m := by
  have hparse : tryParseEnvelope (.json env) = some env := by
    simp [tryParseEnvelope, hver, hmode]
  have hres : resolveKeys c env { password := some pw } =
      .ok (deriveKeyFromPassword c pw (c.b64decode ss)
        (env.iterations.getD PBKDF2_ITERATIONS)) := by
    simp [resolveKeys, hmode, hsome, jsTruthy, hpw, hss]
  rw [decryptMessage_eq_parsed _ _ _ _ hparse, decryptParsed_keys_ok _ _ _ _ hres]
  rw [htag, if_pos ((timingSafeEqual_iff _ _).mpr rfl), hdec, if_neg hm]

/-- Witness for `C10_iterations_used`: an envelope claiming ONE iteration is
processed with one iteration, and an envelope with the field absent is
processed with the 150,000 fallback; both decrypt. -/
theorem C10_iterations_used_witness :
    (decryptMessage toyCrypto
      (.json
        { version := ENVELOPE_VERSION, mode := "password", ciphertext := "hi",
          iv := "iv", salt := some "s",
          hmac := computeIntegrity toyCrypto
            { mode := "password", ciphertext := "hi", iv := "iv",
              salt := some "s", createdAt := 7 }
            (deriveKeyFromPassword toyCrypto "pw" (toyCrypto.b64decode "s") 1).hmacKey,
          iterations := some 1, createdAt := 7 })
      { password := some "pw" } = .ok "hi")
    ∧ (decryptMessage toyCrypto
      (.json
        { version := ENVELOPE_VERSION, mode := "password", ciphertext := "hi",
          iv := "iv", salt := some "s",
          hmac := computeIntegrity toyCrypto
            { mode := "password", ciphertext := "hi", iv := "iv",
              salt := some "s", createdAt := 7 }
            (deriveKeyFromPassword toyCrypto "pw" (toyCrypto.b64decode "s")
              PBKDF2_ITERATIONS).hmacKey,
          iterations := none, createdAt := 7 })
      { password := some "pw" } = .ok "hi") := by
  constructor
  · exact C10_iterations_used toyCrypto _ "s" "pw" "hi" rfl rfl rfl (by decide)
      (by decide) (by decide) rfl (by decide)
  · exact C10_iterations_used toyCrypto _ "s" "pw" "hi" rfl rfl rfl (by decide)
      (by decide) (by decide) rfl (by decide)

/-! ## Claim C7 -/

/-- C7 counterexample: deleting an id that is not in the store reports the
404 result, not success — refuting "always reports success". -/
theorem C7_counterexample :
    Server.deleteMessage [] "abcdef" = (.notFound, [])
    ∧ Server.DeleteResult.notFound ≠ Server.DeleteResult.noContent := by
  exact ⟨rfl, by decide⟩

/-- C7 (amended): the DELETE handler removes the entry and reports 204 when
the id exists; for an unknown id it reports 404 while leaving the store
unchanged.  In both cases the id is absent afterwards, so the operation is
idempotent in its effect on the store, though not in the reported status
(the browser-side client additionally treats the 404 as success). -/
theorem C7_delete_idempotent_effect (s : Server.Store) (id : String) :
    (Server.Store.has s id = true →
      Server.deleteMessage s id = (.noContent, Server.Store.del s id))
    ∧ (Server.Store.has s id = false →
      Server.deleteMessage s id = (.notFound, s))
    ∧ Server.Store.get (Server.deleteMessage s id).2 id = none := by
  refine ⟨?_, ?_, ?_⟩
  · intro h
    simp [Server.deleteMessage, h]
  · intro h
    simp [Server.deleteMessage, h]
  · by_cases h : Server.Store.has s id
    · simp [Server.deleteMessage, h, Store.get_del]
    · have hnone : Server.Store.get s id = none := by
        unfold Server.Store.has at h
        cases hg : Server.Store.get s id with
        | none => rfl
        | some e => rw [hg] at h; simp at h
      simp [Server.deleteMessage, Server.Store.has, hnone]

/-- Witness for `C7_delete_idempotent_effect` at a concrete store. -/
theorem C7_delete_witness :
    (Server.Store.has
        [("abcdef", { encrypted := "x", expiresAt := 9, burnAfterRead := false,
                      remainingViews := 3, createdAt := 0 : Server.Entry })] "abcdef" = true →
      Server.deleteMessage
        [("abcdef", { encrypted := "x", expiresAt := 9, burnAfterRead := false,
                      remainingViews := 3, createdAt := 0 : Server.Entry })] "abcdef"
        = (.noContent, Server.Store.del
            [("abcdef", { encrypted := "x", expiresAt := 9, burnAfterRead := false,
                          remainingViews := 3, createdAt := 0 : Server.Entry })] "abcdef"))
    ∧ (Server.Store.has
        [("abcdef", { encrypted := "x", expiresAt := 9, burnAfterRead := false,
                      remainingViews := 3, createdAt := 0 : Server.Entry })] "abcdef" = false →
      Server.deleteMessage
        [("abcdef", { encrypted := "x", expiresAt := 9, burnAfterRead := false,
                      remainingViews := 3, createdAt := 0 : Server.Entry })] "abcdef"
        = (.notFound,
            [("abcdef", { encrypted := "x", expiresAt := 9, burnAfterRead := false,
                          remainingViews := 3, createdAt := 0 : Server.Entry })]))
    ∧ Server.Store.get
        (Server.deleteMessage
          [("abcdef", { encrypted := "x", expiresAt := 9, burnAfterRead := false,
                        remainingViews := 3, createdAt := 0 : Server.Entry })] "abcdef").2
        "abcdef" = none :=
  C7_delete_idempotent_effect
    [("abcdef", { encrypted := "x", expiresAt := 9, burnAfterRead := false,
                  remainingViews := 3, createdAt := 0 : Server.Entry })] "abcdef"

/-! ## Claim C5 -/

/-- C5: the view-budget resolution at the failing input.  With the default
environment (`DEFAULT_VIEWS = 10`, `MAX_VIEWS = 50`), `maxViews = 1000`
resolves to 10 — the handler caps the budget at `Math.max(DEFAULT_VIEWS, 2)`,
NOT at `MAX_VIEWS = 50` as the documented clamp `clamp(v, 2, 50)` requires —
while `maxViews = 1` does clamp up to the floor 2. -/
theorem C5_clamp_evaluation :
    Server.resolveViews false (some 1000) = 10
    ∧ Server.resolveViews false (some 1) = 2
    ∧ (Server.createMessage [] "abcdef" "blob" (some 60) false (some 1000) 0).1
        = .created 3600000 (some 10)
    ∧ (10 : Int) ≠ 50 := by
  exact ⟨by decide, by decide, by decide, by decide⟩

/-! ## Claim C8 -/

/-- C8: the remote store and the local fallback do NOT resolve the same view
budget: for `maxViews = 20` (not burn, default env) the server stores a
budget of 10 (capped at `DEFAULT_VIEWS`) while the local fallback stores 20
(clamped only to `[2, 50]`), so callers can observe which backend is active. -/
theorem C8_backend_divergence :
    (Server.createMessage [] "abcdef" "blob" (some 60) false (some 20) 0).2
      = [("abcdef", { encrypted := "blob", expiresAt := 3600000,
                      burnAfterRead := false, remainingViews := 10,
                      createdAt := 0 : Server.Entry })]
    ∧ (Local.persistLocal []
        { id := "abcdef", encrypted := "blob", expiresInMinutes := 60,
          burnAfterRead := false, maxViews := some 20 } 0).2
      = [("abcdef", { encrypted := "blob", expiresAt := 3600000,
                      burnAfterRead := false,
                      remainingViews := 20 : Local.LocalEntry })]
    ∧ (10 : Int) ≠ 20 := by
  exact ⟨by decide, by decide, by decide⟩

/-! ## Claim C6 -/

/-- The GET handler on a present entry, as a conditional normal form. -/
theorem readMessage_found (s : Server.Store) (id : String) (now : Int)
    (e : Server.Entry) (h : Server.Store.get s id = some e) :
    Server.readMessage s id now =
      if e.expiresAt ≤ now then (.gone, Server.Store.del s id)
      else if e.remainingViews ≤ 0 then (.notFound, Server.Store.del s id)
      else if e.burnAfterRead then
        (.success e.encrypted e.expiresAt 0, Server.Store.del s id)
      else
        (.success e.encrypted e.expiresAt (max 0 (e.remainingViews - 1)),
          if max 0 (e.remainingViews - 1) ≤ 0 then Server.Store.del s id
          else Server.Store.set s id { e with remainingViews := max 0 (e.remainingViews - 1) }) := by
  unfold Server.readMessage
  rw [h]

/-- C6: reading an id whose entry has expired deletes the entry and reports
Gone; every subsequent read of the same id reports NotFound and leaves the
store unchanged — both outcomes are permanent for that id. -/
theorem C6_expiry_gone_then_notFound (s : Server.Store) (id : String)
    (e : Server.Entry) (now : Int)
    (hget : Server.Store.get s id = some e) (hexp : e.expiresAt ≤ now) :
    (Server.readMessage s id now).1 = .gone
    ∧ Server.Store.get (Server.readMessage s id now).2 id = none
    ∧ (∀ now', Server.readMessage (Server.readMessage s id now).2 id now'
        = (.notFound, (Server.readMessage s id now).2)) := by
  have h1 : Server.readMessage s id now = (.gone, Server.Store.del s id) := by
    rw [readMessage_found s id now e hget, if_pos hexp]
  refine ⟨by rw [h1], ?_, ?_⟩
  · rw [h1]
    exact Store.get_del s id
  · intro now'
    rw [h1]
    exact readMessage_absent _ _ _ (Store.get_del s id)

/-- Witness for `C6_expiry_gone_then_notFound` at a concrete expired entry. -/
theorem C6_expiry_witness :
    (Server.readMessage
      [("abcdef", { encrypted := "x", expiresAt := 5, burnAfterRead := false,
                    remainingViews := 3, createdAt := 0 : Server.Entry })]
      "abcdef" 10).1 = .gone
    ∧ Server.Store.get
        (Server.readMessage
          [("abcdef", { encrypted := "x", expiresAt := 5, burnAfterRead := false,
                        remainingViews := 3, createdAt := 0 : Server.Entry })]
          "abcdef" 10).2 "abcdef" = none
    ∧ (∀ now', Server.readMessage
        (Server.readMessage
          [("abcdef", { encrypted := "x", expiresAt := 5, burnAfterRead := false,
                        remainingViews := 3, createdAt := 0 : Server.Entry })]
          "abcdef" 10).2 "abcdef" now'
        = (.notFound,
            (Server.readMessage
              [("abcdef", { encrypted := "x", expiresAt := 5, burnAfterRead := false,
                            remainingViews := 3, createdAt := 0 : Server.Entry })]
              "abcdef" 10).2)) :=
  C6_expiry_gone_then_notFound
    [("abcdef", { encrypted := "x", expiresAt := 5, burnAfterRead := false,
                  remainingViews := 3, createdAt := 0 : Server.Entry })]
    "abcdef"
    { encrypted := "x", expiresAt := 5, burnAfterRead := false,
      remainingViews := 3, createdAt := 0 } 10 (by decide) (by decide)

/-! ## Claim C4 -/

theorem Store.get_singleton (id : String) (e : Server.Entry) :
    Server.Store.get [(id, e)] id = some e := by
  simp [Server.Store.get, List.find?]

theorem Store.del_singleton (id : String) (e : Server.Entry) :
    Server.Store.del [(id, e)] id = [] := by
  simp [Server.Store.del, List.filter]

theorem Store.set_singleton (id : String) (e e' : Server.Entry) :
    Server.Store.set [(id, e)] id e' = [(id, e')] := by
  simp [Server.Store.set, Server.Store.has, Server.Store.get, List.find?]

/-- One GET on a one-entry store holding a live vault entry: serve the blob
with the post-decrement count; the entry is deleted exactly when the count
reaches 0. -/
theorem readMessage_vault_step (id : String) (e : Server.Entry) (t : Int)
    (hexp : t < e.expiresAt) (hb : e.burnAfterRead = false)
    (hv : 0 < e.remainingViews) :
    Server.readMessage [(id, e)] id t =
      (.success e.encrypted e.expiresAt (e.remainingViews - 1),
        if e.remainingViews - 1 ≤ 0 then []
        else [(id, { e with remainingViews := e.remainingViews - 1 })]) := by
  rw [readMessage_found _ _ _ _ (Store.get_singleton id e),
    if_neg (not_le.mpr hexp), if_neg (not_le.mpr hv), hb]
  rw [if_neg (by simp : ¬ (false = true))]
  rw [max_eq_right (by omega : (0 : Int) ≤ e.remainingViews - 1)]
  rw [Store.del_singleton, Store.set_singleton]

/-- One GET on a one-entry store holding a live burn entry: serve the blob
with count 0 and delete the entry. -/
theorem readMessage_burn_step (id : String) (e : Server.Entry) (t : Int)
    (hexp : t < e.expiresAt) (hb : e.burnAfterRead = true)
    (hv : 0 < e.remainingViews) :
    Server.readMessage [(id, e)] id t =
      (.success e.encrypted e.expiresAt 0, []) := by
  rw [readMessage_found _ _ _ _ (Store.get_singleton id e),
    if_neg (not_le.mpr hexp), if_neg (not_le.mpr hv), hb, if_pos rfl,
    Store.del_singleton]

/-- C4: creating a non-burn entry with `maxViews = 5` resolves the budget to
5, and five sequential reads (before expiry) serve the blob with the strictly
decreasing post-decrement counts 4, 3, 2, 1, 0 — the fifth read deletes the
entry — while a sixth read reports NotFound. -/
theorem C4_vault_five_reads (id encd : String) (minutes now t1 t2 t3 t4 t5 t6 : Int)
    (hid : 6 ≤ id.length) (hid2 : id.length ≤ 36)
    (henc : 0 < encd.length) (henc2 : encd.length ≤ 20000) (hmins : 0 < minutes)
    (ht1 : t1 < now + min minutes Server.MAX_MINUTES * 60 * 1000)
    (ht2 : t2 < now + min minutes Server.MAX_MINUTES * 60 * 1000)
    (ht3 : t3 < now + min minutes Server.MAX_MINUTES * 60 * 1000)
    (ht4 : t4 < now + min minutes Server.MAX_MINUTES * 60 * 1000)
    (ht5 : t5 < now + min minutes Server.MAX_MINUTES * 60 * 1000)
    (ht6 : t6 < now + min minutes Server.MAX_MINUTES * 60 * 1000) :
    (Server.createMessage [] id encd (some minutes) false (some 5) now).1
      = .created (now + min minutes Server.MAX_MINUTES * 60 * 1000) (some 5)
    ∧ (Server.runReads
        (Server.createMessage [] id encd (some minutes) false (some 5) now).2
        id [t1, t2, t3, t4, t5, t6]).1
      = [.success encd (now + min minutes Server.MAX_MINUTES * 60 * 1000) 4,
         .success encd (now + min minutes Server.MAX_MINUTES * 60 * 1000) 3,
         .success encd (now + min minutes Server.MAX_MINUTES * 60 * 1000) 2,
         .success encd (now + min minutes Server.MAX_MINUTES * 60 * 1000) 1,
         .success encd (now + min minutes Server.MAX_MINUTES * 60 * 1000) 0,
         .notFound] := by
  have hidc : ¬(id.length < 6 ∨ 36 < id.length) := by omega
  have hencc : ¬(encd.length = 0 ∨ 20000 < encd.length) := by omega
  have hminc : ¬(minutes ≤ 0) := by omega
  have hres : Server.resolveViews false (some 5) = 5 := by decide
  have hr : Server.createMessage [] id encd (some minutes) false (some 5) now
      = (.created (now + min minutes Server.MAX_MINUTES * 60 * 1000) (some 5),
         [(id, { encrypted := encd,
                 expiresAt := now + min minutes Server.MAX_MINUTES * 60 * 1000,
                 burnAfterRead := false, remainingViews := 5, createdAt := now })]) := by
    simp [Server.createMessage, hidc, hencc, hminc, hres,
      Server.Store.set, Server.Store.has, Server.Store.get]
  have h1 := readMessage_vault_step id
    { encrypted := encd, expiresAt := now + min minutes Server.MAX_MINUTES * 60 * 1000,
      burnAfterRead := false, remainingViews := 5, createdAt := now } t1 ht1 rfl
    (show (0 : Int) < 5 by decide)
  have h2 := readMessage_vault_step id
    { encrypted := encd, expiresAt := now + min minutes Server.MAX_MINUTES * 60 * 1000,
      burnAfterRead := false, remainingViews := 4, createdAt := now } t2 ht2 rfl
    (show (0 : Int) < 4 by decide)
  have h3 := readMessage_vault_step id
    { encrypted := encd, expiresAt := now + min minutes Server.MAX_MINUTES * 60 * 1000,
      burnAfterRead := false, remainingViews := 3, createdAt := now } t3 ht3 rfl
    (show (0 : Int) < 3 by decide)
  have h4 := readMessage_vault_step id
    { encrypted := encd, expiresAt := now + min minutes Server.MAX_MINUTES * 60 * 1000,
      burnAfterRead := false, remainingViews := 2, createdAt := now } t4 ht4 rfl
    (show (0 : Int) < 2 by decide)
  have h5 := readMessage_vault_step id
    { encrypted := encd, expiresAt := now + min minutes Server.MAX_MINUTES * 60 * 1000,
      burnAfterRead := false, remainingViews := 1, createdAt := now } t5 ht5 rfl
    (show (0 : Int) < 1 by decide)
  norm_num at h1 h2 h3 h4 h5
  have h6 : Server.readMessage [] id t6 = (.notFound, []) := rfl
  refine ⟨by rw [hr], ?_⟩
  rw [hr]
  simp only [Server.runReads, h1, h2, h3, h4, h5, h6]

/-- Witness for `C4_vault_five_reads` at concrete inputs. -/
theorem C4_vault_five_reads_witness :
    (Server.createMessage [] "abcdef" "blob" (some 60) false (some 5) 0).1
      = .created (0 + min 60 Server.MAX_MINUTES * 60 * 1000) (some 5)
    ∧ (Server.runReads
        (Server.createMessage [] "abcdef" "blob" (some 60) false (some 5) 0).2
        "abcdef" [1, 2, 3, 4, 5, 6]).1
      = [.success "blob" (0 + min 60 Server.MAX_MINUTES * 60 * 1000) 4,
         .success "blob" (0 + min 60 Server.MAX_MINUTES * 60 * 1000) 3,
         .success "blob" (0 + min 60 Server.MAX_MINUTES * 60 * 1000) 2,
         .success "blob" (0 + min 60 Server.MAX_MINUTES * 60 * 1000) 1,
         .success "blob" (0 + min 60 Server.MAX_MINUTES * 60 * 1000) 0,
         .notFound] :=
  C4_vault_five_reads "abcdef" "blob" 60 0 1 2 3 4 5 6 (by decide) (by decide)
    (by decide) (by decide) (by decide) (by decide) (by decide) (by decide)
    (by decide) (by decide) (by decide)

/-! ## Claim C9 -/

theorem runReads_empty_counts (id : String) (times : List Int) :
    ((Server.runReads [] id times).1.countP (fun r => r.isSuccess) = 0)
    ∧ ((Server.runReads [] id times).1.countP (fun r => r.isNotFound) = times.length) := by
  induction times with
  | nil => exact ⟨rfl, rfl⟩
  | cons t ts ih =>
    have h : Server.readMessage [] id t = (.notFound, []) := rfl
    simp only [Server.runReads, h, List.countP_cons]
    refine ⟨?_, ?_⟩
    · rw [ih.1]
      rfl
    · rw [ih.2]
      rfl

/-- Read accounting on a one-entry store: over any sequence of reads before
expiry, the number of served blobs is `min (number of reads) B`, where the
budget `B` is 1 for a burn entry and the remaining view count for a vault
entry, and every other read reports NotFound. -/
theorem runReads_single_counts (id : String) (e : Server.Entry) (times : List Int)
    (ht : ∀ t ∈ times, t < e.expiresAt) (hv : 0 < e.remainingViews) :
    ((Server.runReads [(id, e)] id times).1.countP (fun r => r.isSuccess)
      = min times.length (if e.burnAfterRead then 1 else e.remainingViews.toNat))
    ∧ ((Server.runReads [(id, e)] id times).1.countP (fun r => r.isNotFound)
      = times.length
        - min times.length (if e.burnAfterRead then 1 else e.remainingViews.toNat)) := by
  induction times generalizing e with
  | nil => simp [Server.runReads]
  | cons t ts ih =>
    have hexp : t < e.expiresAt := ht t (List.mem_cons_self t ts)
    have hts : ∀ u ∈ ts, u < e.expiresAt := fun u hu => ht u (List.mem_cons_of_mem t hu)
    by_cases hb : e.burnAfterRead = true
    · have hstep := readMessage_burn_step id e t hexp hb hv
      have hbud : (if e.burnAfterRead then 1 else e.remainingViews.toNat) = 1 := by
        simp [hb]
      rw [hbud]
      simp only [Server.runReads, hstep, List.countP_cons]
      have hrest := runReads_empty_counts id ts
      constructor
      · rw [hrest.1]
        simp only [Server.ReadResult.isSuccess, List.length_cons, Bool.false_eq_true,
            if_true, if_false, Int.toNat_one]
        omega
      · rw [hrest.2]
        simp only [Server.ReadResult.isNotFound, List.length_cons, Bool.false_eq_true,
            if_true, if_false, Int.toNat_one]
        omega
    · have hb' : e.burnAfterRead = false := by
        simpa using hb
      have hstep := readMessage_vault_step id e t hexp hb' hv
      have hbud : (if e.burnAfterRead then 1 else e.remainingViews.toNat)
          = e.remainingViews.toNat := by
        simp [hb']
      rw [hbud]
      by_cases h1 : e.remainingViews - 1 ≤ 0
      · rw [if_pos h1] at hstep
        have hv1 : e.remainingViews = 1 := by omega
        simp only [Server.runReads, hstep, List.countP_cons]
        have hrest := runReads_empty_counts id ts
        constructor
        · rw [hrest.1]
          simp only [Server.ReadResult.isSuccess, List.length_cons, Bool.false_eq_true,
            if_true, if_false, Int.toNat_one, hv1]
          omega
        · rw [hrest.2]
          simp only [Server.ReadResult.isNotFound, List.length_cons, Bool.false_eq_true,
            if_true, if_false, Int.toNat_one, hv1]
          omega
      · rw [if_neg h1] at hstep
        simp only [Server.runReads, hstep, List.countP_cons]
        have hrec := ih { e with remainingViews := e.remainingViews - 1 } hts
          (show 0 < e.remainingViews - 1 by omega)
        have hbud2 : (if ({ e with remainingViews := e.remainingViews - 1 } :
              Server.Entry).burnAfterRead then 1
            else ({ e with remainingViews := e.remainingViews - 1 } :
              Server.Entry).remainingViews.toNat)
            = (e.remainingViews - 1).toNat := by
          simp [hb']
        rw [hbud2] at hrec
        constructor
        · rw [hrec.1]
          simp only [Server.ReadResult.isSuccess, List.length_cons, Bool.false_eq_true,
            if_true, if_false, Int.toNat_one]
          omega
        · rw [hrec.2]
          simp only [Server.ReadResult.isNotFound, List.length_cons, Bool.false_eq_true,
            if_true, if_false, Int.toNat_one]
          omega

theorem resolveViews_pos (b : Bool) (mv : Option Int) :
    0 < Server.resolveViews b mv := by
  cases b with
  | true => simp [Server.resolveViews]
  | false =>
    cases mv with
    | none =>
      simp [Server.resolveViews, Server.DEFAULT_VIEWS]
    | some v =>
      simp only [Server.resolveViews, Server.DEFAULT_VIEWS, Server.MAX_VIEWS,
        Bool.false_eq_true, if_neg]
      omega

/-- C9: the Node event loop runs each synchronous handler atomically, so any
set of concurrent GETs is observed as a sequence of atomic reads.  Over any
such sequence (before expiry) on a freshly created entry, the number of reads
that are served the blob equals `min (number of reads) B`, where `B` is the
view budget the entry was created with (1 for burn, the resolved vault budget
otherwise); all other reads observe NotFound.  In particular `B ≤ n` reads
yield exactly `B` blobs, and a burn entry under `n ≥ 2` reads yields exactly
one success and `n − 1` NotFound results. -/
theorem C9_read_budget (id encd : String) (minutes now : Int) (b : Bool)
    (mv : Option Int) (times : List Int)
    (hid : 6 ≤ id.length) (hid2 : id.length ≤ 36)
    (henc : 0 < encd.length) (henc2 : encd.length ≤ 20000) (hmins : 0 < minutes)
    (ht : ∀ t ∈ times, t < now + min minutes Server.MAX_MINUTES * 60 * 1000) :
    ((Server.runReads (Server.createMessage [] id encd (some minutes) b mv now).2
        id times).1.countP (fun r => r.isSuccess)
      = min times.length (Server.resolveViews b mv).toNat)
    ∧ ((Server.runReads (Server.createMessage [] id encd (some minutes) b mv now).2
        id times).1.countP (fun r => r.isNotFound)
      = times.length - min times.length (Server.resolveViews b mv).toNat)
    ∧ ((Server.resolveViews b mv).toNat ≤ times.length →
        (Server.runReads (Server.createMessage [] id encd (some minutes) b mv now).2
          id times).1.countP (fun r => r.isSuccess) = (Server.resolveViews b mv).toNat)
    ∧ (b = true → 2 ≤ times.length →
        ((Server.runReads (Server.createMessage [] id encd (some minutes) b mv now).2
          id times).1.countP (fun r => r.isSuccess) = 1
        ∧ (Server.runReads (Server.createMessage [] id encd (some minutes) b mv now).2
          id times).1.countP (fun r => r.isNotFound) = times.length - 1)) := by
  have hidc : ¬(id.length < 6 ∨ 36 < id.length) := by omega
  have hencc : ¬(encd.length = 0 ∨ 20000 < encd.length) := by omega
  have hminc : ¬(minutes ≤ 0) := by omega
  have hstore : (Server.createMessage [] id encd (some minutes) b mv now).2
      = [(id, { encrypted := encd,
                expiresAt := now + min minutes Server.MAX_MINUTES * 60 * 1000,
                burnAfterRead := b, remainingViews := Server.resolveViews b mv,
                createdAt := now })] := by
    simp [Server.createMessage, hidc, hencc, hminc,
      Server.Store.set, Server.Store.has, Server.Store.get]
  have hmain := runReads_single_counts id
    { encrypted := encd, expiresAt := now + min minutes Server.MAX_MINUTES * 60 * 1000,
      burnAfterRead := b, remainingViews := Server.resolveViews b mv, createdAt := now }
    times ht (resolveViews_pos b mv)
  have hB : (if b then 1 else (Server.resolveViews b mv).toNat)
      = (Server.resolveViews b mv).toNat := by
    cases b <;> simp [Server.resolveViews]
  rw [hB] at hmain
  rw [hstore]
  refine ⟨hmain.1, hmain.2, ?_, ?_⟩
  · intro hle
    rw [hmain.1]
    omega
  · intro hbt hlen
    subst hbt
    have h1 : Server.resolveViews true mv = 1 := by simp [Server.resolveViews]
    rw [hmain.1, hmain.2, h1]
    constructor
    · simp
      omega
    · simp
      omega

/-- Witness for `C9_read_budget`: a burn entry under three sequential reads
serves the blob exactly once and reports NotFound twice. -/
theorem C9_read_budget_witness :
    ((Server.runReads (Server.createMessage [] "abcdef" "x" (some 60) true none 0).2
      "abcdef" [1, 2, 3]).1.countP (fun r => r.isSuccess) = 1)
    ∧ ((Server.runReads (Server.createMessage [] "abcdef" "x" (some 60) true none 0).2
      "abcdef" [1, 2, 3]).1.countP (fun r => r.isNotFound) = 2) := by
  have h := C9_read_budget "abcdef" "x" 60 0 true none [1, 2, 3] (by decide) (by decide)
    (by decide) (by decide) (by decide) (by decide)
  have h4 := h.2.2.2 rfl (by decide)
  exact ⟨h4.1, by rw [h4.2]; rfl⟩

end Cryptopad
